import Mathlib

/-!
Shallow embedding of `src/app.py` (a Streamlit scraper for medi-learn
examination protocols) and verification of the frozen claims about it.

Modelling conventions:
* A parsed HTML document (`BeautifulSoup` output) is modelled by `Html`:
  the list of `<a href=...>` anchors in document order (each with its
  `href` attribute, its `get_text(" ", strip=True)` text, and its `rel`
  attribute tokens), the raw markup string, and whether a named results
  container exists.  The source functions only inspect the anchors.
* Python strings are Lean `String`s; `str.lower` is modelled on ASCII
  letters, `\s` / `str.strip` on ASCII whitespace, and `\d` on ASCII
  digits (the inputs exercised by the program are within these ranges).
* Python truthiness of an optional string (`if v:`) is `truthy`.
* `urllib.parse.urljoin` is modelled by `urljoin` for the href shapes
  the program meets: absolute, protocol-relative, root-relative,
  query-only, fragment-only and plain relative references.
* Fallible HTTP fetching (`session.get` + `raise_for_status`) is an
  oracle `String → Except String Html`; a raised `requests` exception is
  the `Except.error` case.
-/

/-- Python-style truthiness of an optional string: `None` and `""` are falsy. -/
def truthy : Option String → Bool
  | none => false
  | some s => s != ""

/-- ASCII whitespace, the characters matched by Python `\s` on the inputs here. -/
def pySpace (c : Char) : Bool :=
  c == ' ' || c == '\t' || c == '\n' || c == '\r' || c.toNat == 0x0b || c.toNat == 0x0c

/-- Both-ends strip of ASCII whitespace, modelling Python `str.strip()`. -/
def pyStrip (l : List Char) : List Char :=
  ((l.dropWhile pySpace).reverse.dropWhile pySpace).reverse

/-- Replace every maximal whitespace run by a single space, modelling
the regular-expression substitution collapsing whitespace runs.  The flag
records whether the previous character was whitespace. -/
def collapseWsAux : List Char → Bool → List Char
  | [], _ => []
  | c :: rest, prevSpace =>
    if pySpace c then
      (if prevSpace then [] else [' ']) ++ collapseWsAux rest true
    else c :: collapseWsAux rest false

/-- Model of Python `str.lower()` (ASCII case folding). -/
def strLower (s : String) : String := ⟨s.data.map Char.toLower⟩

/-- Model of `norm` from `src/app.py`: strip, collapse whitespace runs to a
single space, lower-case. -/
def norm (s : String) : String :=
  ⟨(collapseWsAux (pyStrip s.data) false).map Char.toLower⟩

/-- Decide whether `pat` occurs as a contiguous sublist of `s`, modelling
Python `pat in s` on strings. -/
def listSub (pat s : List Char) : Bool :=
  s.tails.any (fun t => pat.isPrefixOf t)

/-- String form of `listSub`: `subIn pat s` models Python `pat in s`. -/
def subIn (pat s : String) : Bool := listSub pat.data s.data

/-- Split a character list at the first occurrence of `pat`, returning the
part before it and the part after it. -/
def breakSub (pat : List Char) : List Char → Option (List Char × List Char)
  | [] => if pat.isEmpty then some ([], []) else none
  | c :: rest =>
    if pat.isPrefixOf (c :: rest) then some ([], (c :: rest).drop pat.length)
    else
      match breakSub pat rest with
      | some (pre, post) => some (c :: pre, post)
      | none => none

/-- Scheme-plus-authority part of an absolute URL, for resolving
root-relative references. -/
def originOf (s : String) : String :=
  match breakSub "://".data s.data with
  | some (scheme, rest) => ⟨scheme ++ "://".data ++ rest.takeWhile (· ≠ '/')⟩
  | none => ⟨s.data.takeWhile (· ≠ '/')⟩

/-- Scheme part (with the colon) of an absolute URL, for protocol-relative
references. -/
def schemeOf (s : String) : String :=
  match breakSub "://".data s.data with
  | some (scheme, _) => ⟨scheme ++ [':']⟩
  | none => ""

/-- URL with query and fragment removed. -/
def stripQuery (s : String) : String :=
  ⟨s.data.takeWhile (fun c => c ≠ '?' && c ≠ '#')⟩

/-- URL with the fragment removed. -/
def stripFrag (s : String) : String :=
  ⟨s.data.takeWhile (fun c => c ≠ '#')⟩

/-- URL up to and including the last slash (the "directory" of the base),
for plain relative references. -/
def dirOf (s : String) : String :=
  ⟨((s.data.reverse.dropWhile (· ≠ '/'))).reverse⟩

/-- Model of `urllib.parse.urljoin` for the reference shapes this program
meets: absolute, protocol-relative, root-relative, query-only,
fragment-only and plain relative hrefs. -/
def urljoin (base href : String) : String :=
  if listSub "://".data href.data then href
  else if "//".data.isPrefixOf href.data then schemeOf base ++ href
  else if "/".data.isPrefixOf href.data then originOf base ++ href
  else if "?".data.isPrefixOf href.data then stripQuery base ++ href
  else if "#".data.isPrefixOf href.data then stripFrag base ++ href
  else dirOf base ++ href

/-- `BASE_URL` from `src/app.py`. -/
def BASE_URL : String := "https://www.medi-learn.de"

/-- `START_PATH` from `src/app.py`. -/
def START_PATH : String := "/pruefungsprotokolle/facharztpruefung/"

/-- `START_URL` from `src/app.py`: the join of `BASE_URL` and `START_PATH`. -/
def START_URL : String := urljoin BASE_URL START_PATH

/-- Model of `absolute_url` from `src/app.py`: `None` for a falsy href,
otherwise the join against the base. -/
def absolute_url (base : String) (href : String) : Option String :=
  if href = "" then none else some (urljoin base href)

/-- Case-insensitive match of the literal `pat` at the head of `s`,
returning the remainder on success (Python `re.I` on ASCII letters). -/
def matchLitCI : List Char → List Char → Option (List Char)
  | [], s => some s
  | _, [] => none
  | p :: ps, c :: cs => if p.toLower == c.toLower then matchLitCI ps cs else none

/-- Literal part of `DETAIL_RE` from `src/app.py`. -/
def detailLit : List Char := "detailed.php?ID=".data

/-- Leftmost-match search for `DETAIL_RE`: at each position try the literal
(case-insensitively) followed by a maximal nonempty ASCII digit run; the
digit run is the captured group. -/
def detailSearchAux : List Char → Option String
  | [] => none
  | c :: rest =>
    match matchLitCI detailLit (c :: rest) with
    | some after =>
      let ds := after.takeWhile Char.isDigit
      if ds.isEmpty then detailSearchAux rest else some ⟨ds⟩
    | none => detailSearchAux rest

/-- Model of `DETAIL_RE.search(s)` returning `group(1)`, the record id. -/
def detailSearch (s : String) : Option String := detailSearchAux s.data

/-- An `<a href=...>` element as the extractor sees it: the `href`
attribute, the `get_text(" ", strip=True)` text, and the `rel` attribute
tokens (never consulted by the source code). -/
structure Anchor where
  href : String
  text : String
  rel : List String
deriving DecidableEq, Repr

/-- A parsed HTML document: its anchors in document order, its raw markup,
and whether a named results container is present.  The source functions
only inspect `anchors`. -/
structure Html where
  anchors : List Anchor
  raw : String
  hasResultsContainer : Bool
deriving DecidableEq, Repr

/-- One discovered detail reference, the dict
`\x7b"ml_id": ..., "title": ..., "url": ...\x7d` built by the extractor. -/
structure Row where
  ml_id : String
  title : String
  url : String
deriving DecidableEq, Repr

/-- Rows produced by the anchor scan of `extract_result_rows_from_html`
before deduplication: for each anchor whose href matches `DETAIL_RE`, a row
with the captured id, the anchor text (defaulting to `"Protokoll " ++ id`
when the text is empty) and the absolutized url, kept only when the url is
truthy. -/
def rawRows (page : Html) : List Row :=
  page.anchors.filterMap (fun a =>
    match detailSearch a.href with
    | none => none
    | some mlId =>
      match absolute_url START_URL a.href with
      | none => none
      | some url =>
        if url = "" then none
        else some ⟨mlId, if a.text = "" then "Protokoll " ++ mlId else a.text, url⟩)

/-- The de-dup pass of `extract_result_rows_from_html`: keep the first row
for each id not already in `seen`. -/
def dedupGo (seen : List String) : List Row → List Row
  | [] => []
  | r :: rest =>
    if r.ml_id ∈ seen then dedupGo seen rest
    else r :: dedupGo (r.ml_id :: seen) rest

/-- Model of `extract_result_rows_from_html` from `src/app.py`: scan all
anchors for the detail pattern, then de-duplicate by `ml_id` keeping the
first occurrence. -/
def extract_result_rows_from_html (page : Html) : List Row :=
  dedupGo [] (rawRows page)

/-- The "next page" labels from `find_next_page_url_from_html`. -/
def nextLabels : List String := ["weiter", "nächste", "next", "»", "›", ">"]

/-- Model of `find_next_page_url_from_html` from `src/app.py`: collect the
hrefs of anchors whose lower-cased text contains a next-page label; return
the absolutized first candidate whose absolutized url contains the
protokolle path, else the absolutized first candidate, else `None`. -/
def find_next_page_url_from_html (page : Html) : Option String :=
  let candidates := page.anchors.filterMap (fun a =>
    if nextLabels.any (fun t => subIn t (strLower a.text)) then some a.href else none)
  match candidates with
  | [] => none
  | c0 :: _ =>
    match candidates.find? (fun href =>
        match absolute_url START_URL href with
        | some full => full != "" && subIn "/pruefungsprotokolle/facharztpruefung" full
        | none => false) with
    | some href => absolute_url START_URL href
    | none => absolute_url START_URL c0

/-- One option of a selection control, `\x7b"visible": ..., "value": ...\x7d`
as consumed by `pick_option_value`. -/
structure OptionEntry where
  visible : String
  value : String
deriving DecidableEq, Repr

/-- Model of `pick_option_value` from `src/app.py`: first an exact match on
normalized visible text, then a fuzzy pass (normalized visible starts with
the key, or contains it, or is contained in it); `(None, None)` when both
passes fail. -/
def pick_option_value (options : List OptionEntry) (wanted_visible : String) :
    Option String × Option String :=
  let key := norm wanted_visible
  match options.find? (fun (o : OptionEntry) => norm o.visible == key) with
  | some o => (some o.value, some o.visible)
  | none =>
    match options.find? (fun (o : OptionEntry) =>
        let k := norm o.visible
        key.data.isPrefixOf k.data || listSub key.data k.data || listSub k.data key.data) with
    | some o => (some o.value, some o.visible)
    | none => (none, none)

/-- One `<option>` element: its `get_text(strip=True)` text and its `value`
attribute when present. -/
structure OptionElem where
  visible : String
  valueAttr : Option String
deriving DecidableEq, Repr

/-- One `<select>` element: `name` and `id` attributes (empty when absent),
the parent's `get_text(" ", strip=True)` context, and its options. -/
structure SelectElem where
  name : String
  id : String
  context : String
  options : List OptionElem
deriving DecidableEq, Repr

/-- Effective option value, modelling `o.get("value", vis) or vis`:
a missing or empty `value` attribute falls back to the visible text. -/
def optValue (vis : String) (valAttr : Option String) : String :=
  match valAttr with
  | some v => if v = "" then vis else v
  | none => vis

/-- Model of `guess_select_role` from `src/app.py`: classify a select as
`"uni"` or `"fach"` from its name/id, then its surrounding context, then by
counting city-name versus specialty-name hits among its options. -/
def guess_select_role (sel : SelectElem) : Option String :=
  let name := strLower sel.name
  let sid := strLower sel.id
  let around := strLower sel.context
  let uniTokens := ["uni", "universität", "standort", "ort", "tu dresden", "dresden"]
  let fachTokens := ["fach", "fachgebiet", "innere", "medizin", "chirurgie", "neurologie"]
  if ["uni", "standort", "ort"].any (fun t => subIn t name || subIn t sid) then some "uni"
  else if ["fach", "fachgebiet", "gebiet"].any (fun t => subIn t name || subIn t sid) then
    some "fach"
  else if uniTokens.any (fun t => subIn t around) then some "uni"
  else if fachTokens.any (fun t => subIn t around) then some "fach"
  else
    let optsNorm := sel.options.map (fun (o : OptionElem) => norm o.visible)
    let cityHits := (optsNorm.filter (fun o =>
      ["berlin", "münchen", "hamburg", "dresden", "köln", "hannover", "frankfurt"].any
        (fun c => subIn c o))).length
    let fachHits := (optsNorm.filter (fun o =>
      ["innere", "chirurgie", "neurologie", "anästhesie", "derma", "gyn"].any
        (fun f => subIn f o))).length
    if cityHits > fachHits then some "uni"
    else if fachHits > cityHits then some "fach"
    else none

/-- Model of `pick_from_bs` inside the `run_auto` handler: build the option
list (skipping empty visible texts, applying the value-attribute fallback)
and run `pick_option_value` on it. -/
def pick_from_bs (sel : SelectElem) (wanted : String) : Option String × Option String :=
  pick_option_value
    (sel.options.filterMap (fun (o : OptionElem) =>
      if o.visible = "" then none else some ⟨o.visible, optValue o.visible o.valueAttr⟩))
    wanted

/-- Per-filter effect of the `run_auto` mapping loops: the role-based pass
takes the first select whose guessed role matches and whose pick is truthy;
the fallback pass takes the first select (of any role) whose pick is
truthy; otherwise name and value stay `None`. -/
def resolveRole (selects : List SelectElem) (role : String) (wanted : String) :
    Option String × Option String :=
  match selects.find? (fun sel =>
      guess_select_role sel == some role && truthy (pick_from_bs sel wanted).1) with
  | some sel => (some sel.name, (pick_from_bs sel wanted).1)
  | none =>
    match selects.find? (fun sel => truthy (pick_from_bs sel wanted).1) with
    | some sel => (some sel.name, (pick_from_bs sel wanted).1)
    | none => (none, none)

/-- Outcome of the `run_auto` filter-mapping stage: resolve the uni and the
fach filter over the page's selects; raise (return `Except.error`) when any
of the four resolved pieces is falsy, as the handler's
`RuntimeError("Could not map both filters...")` does. -/
def autoResolve (selects : List SelectElem) (uniAuto fachAuto : String) :
    Except String ((String × String) × (String × String)) :=
  let u := resolveRole selects "uni" uniAuto
  let f := resolveRole selects "fach" fachAuto
  if truthy u.1 && truthy f.1 && truthy u.2 && truthy f.2 then
    Except.ok ((u.1.getD "", u.2.getD ""), (f.1.getD "", f.2.getD ""))
  else Except.error "Could not map both filters"

/-- Python `int` on the digit strings captured by `DETAIL_RE`. -/
def idNum (r : Row) : Nat :=
  r.ml_id.data.foldl (fun n c => n * 10 + (c.toNat - '0'.toNat)) 0

/-- Sort key order used by `all_rows.sort(key=lambda x: int(x["ml_id"]))`. -/
def rowLe (a b : Row) : Prop := idNum a ≤ idNum b

instance : DecidableRel rowLe := fun a b => Nat.decLe (idNum a) (idNum b)

instance : IsTotal Row rowLe := ⟨fun a b => Nat.le_total (idNum a) (idNum b)⟩

instance : IsTrans Row rowLe := ⟨fun _ _ _ h h' => Nat.le_trans h h'⟩

/-- Model of `all_rows.sort(key=lambda x: int(x["ml_id"]))`: a stable sort
by the numeric id. -/
def sortRows (l : List Row) : List Row := List.insertionSort rowLe l

/-- The body of the pagination loop of `crawl_all_pages_html` applied to
one extracted row list: append each row whose id is not yet seen and record
its id. -/
def accumulate : List Row × List String → List Row → List Row × List String
  | acc, [] => acc
  | (rows, seen), r :: rest =>
    if r.ml_id ∈ seen then accumulate (rows, seen) rest
    else accumulate (rows ++ [r], r.ml_id :: seen) rest

/-- The pagination loop of `crawl_all_pages_html`, driven by a fetch oracle
`site`.  The fuel is `30 - guard`: the loop runs while a next url exists
and fewer than 30 iterations have happened.  Each iteration performs one
fetch (counted in the second component); a failed fetch raises, discarding
the accumulator. -/
def crawlLoop (site : String → Except String Html) :
    Nat → List Row × List String → Option String → Except String (List Row) × Nat
  | _, acc, none => (Except.ok acc.1, 0)
  | 0, acc, some _ => (Except.ok acc.1, 0)
  | Nat.succ fuel, acc, some url =>
    match site url with
    | Except.error e => (Except.error e, 1)
    | Except.ok page =>
      let r := crawlLoop site fuel (accumulate acc (extract_result_rows_from_html page))
        (find_next_page_url_from_html page)
      (r.1, r.2 + 1)

/-- Model of `crawl_all_pages_html` from `src/app.py`: extract the first
page, walk next-page urls through the fetch oracle accumulating new rows
(guarded to 30 iterations), and sort the result by numeric id.  The second
component counts the fetches the loop performed. -/
def crawl_all_pages_html (site : String → Except String Html) (firstHtml : Html) :
    Except String (List Row) × Nat :=
  let a0 := extract_result_rows_from_html firstHtml
  let r := crawlLoop site 30 (a0, a0.map Row.ml_id) (find_next_page_url_from_html firstHtml)
  (r.1.map sortRows, r.2)

/-- Accumulation of `crawl_all_pages_html` over an explicit sequence of
already-fetched result pages (first page, then the pages the loop
processes), with the final sort; this is the loop with fetching abstracted
to the page sequence. -/
def crawlAccum (firstHtml : Html) (pages : List Html) : List Row :=
  let a0 := extract_result_rows_from_html firstHtml
  let p := pages.foldl (fun acc page => accumulate acc (extract_result_rows_from_html page))
    (a0, a0.map Row.ml_id)
  sortRows p.1

/-- The seen-id set after running the accumulation loop body over a row
list starting from `s` (the loop's `seen_ids` variable). -/
def seenAfter (s : List String) : List Row → List String
  | [] => s
  | r :: rest => if r.ml_id ∈ s then seenAfter s rest else seenAfter (r.ml_id :: s) rest

/-- All pre-deduplication rows of a page sequence, in processing order. -/
def allRaw (pages : List Html) : List Row := (pages.map rawRows).flatten

theorem dedupGo_append (l1 l2 : List Row) : ∀ s,
    dedupGo s (l1 ++ l2) = dedupGo s l1 ++ dedupGo (seenAfter s l1) l2 := by
  induction l1 with
  | nil => intro s; simp [dedupGo, seenAfter]
  | cons r rest ih =>
    intro s
    by_cases h : r.ml_id ∈ s <;> simp [dedupGo, seenAfter, h, ih]

theorem seenAfter_append (l1 l2 : List Row) : ∀ s,
    seenAfter s (l1 ++ l2) = seenAfter (seenAfter s l1) l2 := by
  induction l1 with
  | nil => intro s; simp [seenAfter]
  | cons r rest ih =>
    intro s
    by_cases h : r.ml_id ∈ s <;> simp [seenAfter, h, ih]

theorem mem_seenAfter (l : List Row) : ∀ s i,
    i ∈ seenAfter s l ↔ i ∈ s ∨ i ∈ (dedupGo s l).map Row.ml_id := by
  induction l with
  | nil => intro s i; simp [seenAfter, dedupGo]
  | cons r rest ih =>
    intro s i
    by_cases h : r.ml_id ∈ s
    · simp [seenAfter, dedupGo, h, ih]
    · simp only [seenAfter, dedupGo, h, if_neg, ite_false, List.map_cons, List.mem_cons]
      rw [ih]
      constructor
      · rintro (h1 | h2)
        · rcases List.mem_cons.mp h1 with h1 | h1
          · exact Or.inr (Or.inl h1)
          · exact Or.inl h1
        · exact Or.inr (Or.inr h2)
      · rintro (h1 | h1 | h1)
        · exact Or.inl (List.mem_cons.mpr (Or.inr h1))
        · exact Or.inl (List.mem_cons.mpr (Or.inl h1))
        · exact Or.inr h1

theorem dedupGo_congr (l : List Row) : ∀ s1 s2, (∀ i, i ∈ s1 ↔ i ∈ s2) →
    dedupGo s1 l = dedupGo s2 l := by
  induction l with
  | nil => intro s1 s2 _; rfl
  | cons r rest ih =>
    intro s1 s2 h
    by_cases hm : r.ml_id ∈ s1
    · have hm2 : r.ml_id ∈ s2 := (h _).mp hm
      simp [dedupGo, hm, hm2, ih s1 s2 h]
    · have hm2 : r.ml_id ∉ s2 := fun hc => hm ((h _).mpr hc)
      have h' : ∀ i, i ∈ r.ml_id :: s1 ↔ i ∈ r.ml_id :: s2 := by
        intro i; simp only [List.mem_cons]; rw [h]
      simp [dedupGo, hm, hm2, ih _ _ h']

theorem dedupGo_dedupGo (l : List Row) : ∀ s t, (∀ i, i ∈ t → i ∈ s) →
    dedupGo s (dedupGo t l) = dedupGo s l := by
  induction l with
  | nil => intro s t _; rfl
  | cons r rest ih =>
    intro s t hts
    by_cases ht : r.ml_id ∈ t
    · have hs : r.ml_id ∈ s := hts _ ht
      simp [dedupGo, ht, hs, ih s t hts]
    · by_cases hs : r.ml_id ∈ s
      · have hts' : ∀ i, i ∈ r.ml_id :: t → i ∈ s := by
          intro i hi
          rcases List.mem_cons.mp hi with hi | hi
          · exact hi ▸ hs
          · exact hts _ hi
        simp [dedupGo, ht, hs, ih s _ hts']
      · have hts' : ∀ i, i ∈ r.ml_id :: t → i ∈ r.ml_id :: s := by
          intro i hi
          rcases List.mem_cons.mp hi with hi | hi
          · exact List.mem_cons.mpr (Or.inl hi)
          · exact List.mem_cons.mpr (Or.inr (hts _ hi))
        simp [dedupGo, ht, hs, ih _ _ hts']

theorem accumulate_eq (l : List Row) : ∀ rows seen,
    accumulate (rows, seen) l = (rows ++ dedupGo seen l, seenAfter seen l) := by
  induction l with
  | nil => intro rows seen; simp [accumulate, dedupGo, seenAfter]
  | cons r rest ih =>
    intro rows seen
    by_cases h : r.ml_id ∈ seen
    · simp [accumulate, dedupGo, seenAfter, h, ih]
    · simp [accumulate, dedupGo, seenAfter, h, ih]

theorem mem_of_mem_dedupGo {r : Row} (l : List Row) : ∀ s, r ∈ dedupGo s l → r ∈ l := by
  induction l with
  | nil => intro s h; simp [dedupGo] at h
  | cons x rest ih =>
    intro s h
    by_cases hx : x.ml_id ∈ s
    · simp only [dedupGo, hx, if_pos] at h
      exact List.mem_cons.mpr (Or.inr (ih s h))
    · simp only [dedupGo, hx, if_neg, ite_false] at h
      rcases List.mem_cons.mp h with h | h
      · exact List.mem_cons.mpr (Or.inl h)
      · exact List.mem_cons.mpr (Or.inr (ih _ h))

theorem mem_dedupGo_not_seen {r : Row} (l : List Row) : ∀ s, r ∈ dedupGo s l →
    r.ml_id ∉ s := by
  induction l with
  | nil => intro s h; simp [dedupGo] at h
  | cons x rest ih =>
    intro s h
    by_cases hx : x.ml_id ∈ s
    · simp only [dedupGo, hx, if_pos] at h
      exact ih s h
    · simp only [dedupGo, hx, if_neg, ite_false] at h
      rcases List.mem_cons.mp h with h | h
      · exact h ▸ hx
      · intro hc
        exact ih _ h (List.mem_cons.mpr (Or.inr hc))

theorem dedupGo_ids_nodup (l : List Row) : ∀ s, ((dedupGo s l).map Row.ml_id).Nodup := by
  induction l with
  | nil => intro s; simp [dedupGo]
  | cons x rest ih =>
    intro s
    by_cases hx : x.ml_id ∈ s
    · simp only [dedupGo, hx, if_pos]
      exact ih s
    · simp only [dedupGo, hx, if_neg, ite_false, List.map_cons]
      refine List.nodup_cons.mpr ⟨?_, ih _⟩
      intro hc
      rcases List.mem_map.mp hc with ⟨r, hr, hid⟩
      exact mem_dedupGo_not_seen rest _ hr (hid ▸ List.mem_cons.mpr (Or.inl rfl))

theorem dedupGo_coverage {r : Row} (l : List Row) : ∀ s, r ∈ l →
    r.ml_id ∈ s ∨ ∃ r' ∈ dedupGo s l, r'.ml_id = r.ml_id := by
  induction l with
  | nil => intro s h; simp at h
  | cons x rest ih =>
    intro s h
    by_cases hx : x.ml_id ∈ s
    · simp only [dedupGo, hx, if_pos]
      rcases List.mem_cons.mp h with h | h
      · exact Or.inl (h ▸ hx)
      · exact ih s h
    · simp only [dedupGo, hx, if_neg, ite_false]
      rcases List.mem_cons.mp h with h | h
      · subst h
        exact Or.inr ⟨r, List.mem_cons.mpr (Or.inl rfl), rfl⟩
      · rcases ih (x.ml_id :: s) h with hc | ⟨r', hr', hid⟩
        · rcases List.mem_cons.mp hc with hc | hc
          · exact Or.inr ⟨x, List.mem_cons.mpr (Or.inl rfl), hc.symm⟩
          · exact Or.inl hc
        · exact Or.inr ⟨r', List.mem_cons.mpr (Or.inr hr'), hid⟩

theorem dedupGo_firstOcc {r : Row} (l : List Row) : ∀ s, r ∈ dedupGo s l →
    r.ml_id ∉ s ∧ ∃ pre post, l = pre ++ r :: post ∧
      ∀ x ∈ pre, x.ml_id ≠ r.ml_id ∨ x.ml_id ∈ s := by
  induction l with
  | nil => intro s h; simp [dedupGo] at h
  | cons x rest ih =>
    intro s h
    by_cases hx : x.ml_id ∈ s
    · simp only [dedupGo, hx, if_pos] at h
      obtain ⟨hns, pre, post, heq, hpre⟩ := ih s h
      refine ⟨hns, x :: pre, post, by simp [heq], ?_⟩
      intro y hy
      rcases List.mem_cons.mp hy with hy | hy
      · exact hy ▸ Or.inr hx
      · exact hpre y hy
    · simp only [dedupGo, hx, if_neg, ite_false] at h
      rcases List.mem_cons.mp h with h | h
      · subst h
        exact ⟨hx, [], rest, rfl, by simp⟩
      · obtain ⟨hns, pre, post, heq, hpre⟩ := ih _ h
        have hne : r.ml_id ≠ x.ml_id := fun hc =>
          hns (List.mem_cons.mpr (Or.inl hc))
        have hns' : r.ml_id ∉ s := fun hc => hns (List.mem_cons.mpr (Or.inr hc))
        refine ⟨hns', x :: pre, post, by simp [heq], ?_⟩
        intro y hy
        rcases List.mem_cons.mp hy with hy | hy
        · exact Or.inl (hy ▸ fun hc => hne hc.symm)
        · rcases hpre y hy with hc | hc
          · exact Or.inl hc
          · rcases List.mem_cons.mp hc with hc | hc
            · exact Or.inl (fun hcc => hne (hcc.symm.trans hc))
            · exact Or.inr hc

theorem foldPages_eq (pages : List Html) : ∀ (F : List Row) (s : List String),
    (∀ i, i ∈ s ↔ i ∈ seenAfter [] F) →
    (pages.foldl (fun acc page => accumulate acc (extract_result_rows_from_html page))
      (dedupGo [] F, s)).1 = dedupGo [] (F ++ allRaw pages) := by
  induction pages with
  | nil => intro F s _; simp [allRaw]
  | cons p rest ih =>
    intro F s hs
    have hstep : accumulate (dedupGo [] F, s) (extract_result_rows_from_html p) =
        (dedupGo [] F ++ dedupGo s (rawRows p), seenAfter s (dedupGo [] (rawRows p))) := by
      rw [extract_result_rows_from_html, accumulate_eq,
        dedupGo_dedupGo (rawRows p) s [] (by intro i h; simp at h)]
    have hcongr : dedupGo s (rawRows p) = dedupGo (seenAfter [] F) (rawRows p) :=
      dedupGo_congr (rawRows p) s (seenAfter [] F) hs
    have hseen : ∀ i, i ∈ seenAfter s (dedupGo [] (rawRows p)) ↔
        i ∈ seenAfter [] (F ++ rawRows p) := by
      intro i
      rw [mem_seenAfter, seenAfter_append, mem_seenAfter,
        dedupGo_dedupGo (rawRows p) s [] (by intro i h; simp at h), hs, hcongr]
    have hacc : dedupGo [] F ++ dedupGo s (rawRows p) = dedupGo [] (F ++ rawRows p) := by
      rw [dedupGo_append, hcongr]
    calc (List.foldl (fun acc page => accumulate acc (extract_result_rows_from_html page))
          (dedupGo [] F, s) (p :: rest)).1
        = (List.foldl (fun acc page => accumulate acc (extract_result_rows_from_html page))
          (dedupGo [] (F ++ rawRows p), seenAfter s (dedupGo [] (rawRows p))) rest).1 := by
          rw [List.foldl_cons, hstep, hacc]
      _ = dedupGo [] ((F ++ rawRows p) ++ allRaw rest) := ih (F ++ rawRows p) _ hseen
      _ = dedupGo [] (F ++ allRaw (p :: rest)) := by
          rw [List.append_assoc]
          simp [allRaw]

theorem crawlAccum_eq (firstHtml : Html) (pages : List Html) :
    crawlAccum firstHtml pages = sortRows (dedupGo [] (allRaw (firstHtml :: pages))) := by
  rw [crawlAccum]
  have h0 : extract_result_rows_from_html firstHtml = dedupGo [] (rawRows firstHtml) := rfl
  have hs : ∀ i, i ∈ (extract_result_rows_from_html firstHtml).map Row.ml_id ↔
      i ∈ seenAfter [] (rawRows firstHtml) := by
    intro i
    rw [mem_seenAfter]
    simp [extract_result_rows_from_html]
  rw [h0]
  rw [foldPages_eq pages (rawRows firstHtml) _ (by intro i; rw [← h0]; exact hs i)]
  simp [allRaw]

/-- C1: For every sequence of result pages processed by one crawl (the
first page plus the pages the pagination loop fetches, even with
overlapping or repeated references), extraction followed by accumulation
yields exactly one entry per distinct record id — the entry list carries
no duplicate ids and every discovered id is represented — and each
surviving entry (hence its title and url) is the first occurrence of its
record id in processing order. -/
theorem crawl_accumulation_dedups_by_first_occurrence (firstHtml : Html) (pages : List Html) :
    ((crawlAccum firstHtml pages).map Row.ml_id).Nodup ∧
    (∀ r ∈ allRaw (firstHtml :: pages),
      ∃ r' ∈ crawlAccum firstHtml pages, r'.ml_id = r.ml_id) ∧
    (∀ r ∈ crawlAccum firstHtml pages,
      ∃ pre post, allRaw (firstHtml :: pages) = pre ++ r :: post ∧
        ∀ x ∈ pre, x.ml_id ≠ r.ml_id) := by
  have hperm :
      List.Perm (crawlAccum firstHtml pages) (dedupGo [] (allRaw (firstHtml :: pages))) := by
    rw [crawlAccum_eq]
    exact List.perm_insertionSort rowLe _
  refine ⟨?_, ?_, ?_⟩
  · exact ((hperm.map Row.ml_id).nodup_iff).mpr (dedupGo_ids_nodup _ [])
  · intro r hr
    rcases dedupGo_coverage (allRaw (firstHtml :: pages)) [] hr with hc | ⟨r', hr', hid⟩
    · simp at hc
    · exact ⟨r', hperm.mem_iff.mpr hr', hid⟩
  · intro r hr
    obtain ⟨_, pre, post, heq, hpre⟩ := dedupGo_firstOcc _ [] (hperm.mem_iff.mp hr)
    refine ⟨pre, post, heq, ?_⟩
    intro x hx
    rcases hpre x hx with h | h
    · exact h
    · simp at h

/-- First page of the concrete two-page crawl used to witness C1. -/
def exC1first : Html := ⟨[⟨"detailed.php?ID=10", "X", []⟩], "", false⟩

/-- Second page of the concrete two-page crawl used to witness C1: it
repeats record 10 and adds record 11. -/
def exC1pages : List Html :=
  [⟨[⟨"detailed.php?ID=10", "Y", []⟩, ⟨"detailed.php?ID=11", "Z", []⟩], "", false⟩]

theorem crawl_accumulation_dedups_by_first_occurrence_witness :
    ((crawlAccum exC1first exC1pages).map Row.ml_id).Nodup ∧
    ∃ r' ∈ crawlAccum exC1first exC1pages, r'.ml_id = "10" :=
  ⟨(crawl_accumulation_dedups_by_first_occurrence exC1first exC1pages).1,
    (crawl_accumulation_dedups_by_first_occurrence exC1first exC1pages).2.1
      ⟨"10", "Y",
        "https://www.medi-learn.de/pruefungsprotokolle/facharztpruefung/detailed.php?ID=10"⟩
      (by decide)⟩

theorem crawlLoop_count_le (site : String → Except String Html) : ∀ (fuel : Nat)
    (acc : List Row × List String) (nextUrl : Option String),
    (crawlLoop site fuel acc nextUrl).2 ≤ fuel := by
  intro fuel
  induction fuel with
  | zero =>
    intro acc u
    cases u <;> simp [crawlLoop]
  | succ n ih =>
    intro acc u
    cases u with
    | none => simp [crawlLoop]
    | some url =>
      cases hs : site url with
      | error e => simp [crawlLoop, hs]
      | ok page =>
        simp only [crawlLoop, hs]
        exact Nat.succ_le_succ (ih _ _)

/-- C2 (amended): the pagination loop of `crawl_all_pages_html` performs at
most 30 fetches — the hardcoded `guard < 30` bound — so together with the
initial fetch done by the caller at most 30 + 1 fetches happen, regardless
of the site's result count or the next-page links its pages contain. -/
theorem crawl_fetches_bounded (site : String → Except String Html) (firstHtml : Html) :
    (crawl_all_pages_html site firstHtml).2 ≤ 30 := by
  simp only [crawl_all_pages_html]
  exact crawlLoop_count_le site 30 _ _

/-- First page of the crawl witnessing that the loop does not stop on a
zero-new-references page: one reference, next link to `u2`. -/
def exC2p1 : Html :=
  ⟨[⟨"detailed.php?ID=1", "A", []⟩, ⟨"https://site/u2", "weiter", []⟩], "", false⟩

/-- Second page: the same single reference (zero new ones) and a next link
to `u3`. -/
def exC2p2 : Html :=
  ⟨[⟨"detailed.php?ID=1", "A", []⟩, ⟨"https://site/u3", "weiter", []⟩], "", false⟩

/-- Third page: empty, no next link. -/
def exC2p3 : Html := ⟨[], "", false⟩

/-- Fetch oracle serving `exC2p2` and `exC2p3`. -/
def exC2site : String → Except String Html := fun u =>
  if u = "https://site/u2" then Except.ok exC2p2
  else if u = "https://site/u3" then Except.ok exC2p3
  else Except.error "404"

/-- C2 counterexample: the second page yields exactly the references of the
first page (zero new ones), yet the loop performs a further fetch — two
loop fetches in all — so the crawl is not driven by a stop-on-first-empty
orchestrator; only the hardcoded guard and the absence of a next link end
the loop. -/
theorem crawl_continues_past_zero_new_page :
    extract_result_rows_from_html exC2p2 = extract_result_rows_from_html exC2p1 ∧
    (crawl_all_pages_html exC2site exC2p1).2 = 2 := by
  constructor
  · decide
  · decide

theorem crawlLoop_error_step (site : String → Except String Html) (fuel : Nat)
    (acc : List Row × List String) (u : String) (e : String)
    (h : site u = Except.error e) :
    crawlLoop site (fuel + 1) acc (some u) = (Except.error e, 1) := by
  simp [crawlLoop, h]

/-- C3 (amended): when the fetch of the first next-page url fails, the
crawl raises that error alone — the references collected so far are
discarded, not returned alongside the error. -/
theorem crawl_error_propagates (site : String → Except String Html) (firstHtml : Html)
    (u : String) (e : String)
    (h1 : find_next_page_url_from_html firstHtml = some u)
    (h2 : site u = Except.error e) :
    (crawl_all_pages_html site firstHtml).1 = Except.error e := by
  simp only [crawl_all_pages_html, h1]
  rw [show (30 : Nat) = 29 + 1 from rfl, crawlLoop_error_step site 29 _ u e h2]
  rfl

/-- First page of the failing crawl: one reference already collected, next
link to a url whose fetch fails. -/
def exC3p1 : Html :=
  ⟨[⟨"detailed.php?ID=1", "A", []⟩, ⟨"https://site/err", "weiter", []⟩], "", false⟩

/-- Fetch oracle that fails on every url. -/
def exC3site : String → Except String Html := fun u =>
  if u = "https://site/err" then Except.error "boom" else Except.error "404"

/-- C3 counterexample: the first page yields a nonempty reference list, the
next-page fetch fails, and the crawl returns only the error — the collected
references are not returned alongside it. -/
theorem crawl_error_discards_collected_rows :
    (crawl_all_pages_html exC3site exC3p1).1 = Except.error "boom" ∧
    extract_result_rows_from_html exC3p1 ≠ [] := by
  constructor
  · rfl
  · decide

theorem crawl_error_propagates_witness :
    (crawl_all_pages_html exC3site exC3p1).1 = Except.error "boom" :=
  crawl_error_propagates exC3site exC3p1 "https://site/err" "boom" (by decide) (by rfl)

/-- C9: whenever the multi-page crawl succeeds, its final reference list is
sorted in ascending numeric order of the record id, regardless of the order
in which the references were discovered across pages. -/
theorem crawl_result_sorted_by_numeric_id (site : String → Except String Html)
    (firstHtml : Html) (rows : List Row)
    (h : (crawl_all_pages_html site firstHtml).1 = Except.ok rows) :
    List.Sorted rowLe rows := by
  simp only [crawl_all_pages_html] at h
  cases hc : (crawlLoop site 30
      (extract_result_rows_from_html firstHtml,
        (extract_result_rows_from_html firstHtml).map Row.ml_id)
      (find_next_page_url_from_html firstHtml)).1 with
  | error e =>
    rw [hc] at h
    simp [Except.map] at h
  | ok l =>
    rw [hc] at h
    simp only [Except.map, Except.ok.injEq] at h
    subst h
    exact List.sorted_insertionSort rowLe l

/-- Page whose references are discovered out of numeric order (20 before 3),
used to witness C9. -/
def exC9p : Html :=
  ⟨[⟨"detailed.php?ID=20", "B", []⟩, ⟨"detailed.php?ID=3", "A", []⟩], "", false⟩

/-- Fetch oracle for the C9 witness; never consulted since `exC9p` has no
next link. -/
def exC9site : String → Except String Html := fun _ => Except.error "404"

theorem crawl_result_sorted_by_numeric_id_witness :
    List.Sorted rowLe
      [⟨"3", "A", "https://www.medi-learn.de/pruefungsprotokolle/facharztpruefung/detailed.php?ID=3"⟩,
        ⟨"20", "B", "https://www.medi-learn.de/pruefungsprotokolle/facharztpruefung/detailed.php?ID=20"⟩] :=
  crawl_result_sorted_by_numeric_id exC9site exC9p _ (by rfl)

/-- C5 (amended): the extractor depends only on the document's anchors; it
performs no raw-markup scan, so changing raw markup or container presence
never changes its output. -/
theorem extract_depends_only_on_anchors (anchors : List Anchor) (raw1 raw2 : String)
    (c1 c2 : Bool) :
    extract_result_rows_from_html ⟨anchors, raw1, c1⟩ =
      extract_result_rows_from_html ⟨anchors, raw2, c2⟩ := rfl

/-- Page whose only detail reference sits inside inline script text, with
no anchor at all. -/
def exC5p : Html := ⟨[], "<script>window.open(detailed.php?ID=99)</script>", false⟩

/-- C5 counterexample: the raw markup contains the detail-link pattern
(id 99), yet extraction returns nothing — no plain-text scan of the raw
markup happens. -/
theorem extract_misses_script_reference :
    extract_result_rows_from_html exC5p = [] ∧ detailSearch exC5p.raw = some "99" := by
  constructor
  · rfl
  · rfl

/-- C6 (amended): the pagination walker only matches anchor text against
the next-page labels; when no anchor text matches, it returns `None`, no
matter what `rel` attributes the anchors carry. -/
theorem find_next_none_without_label_match (page : Html)
    (h : ∀ a ∈ page.anchors,
      (nextLabels.any (fun t => subIn t (strLower a.text))) = false) :
    find_next_page_url_from_html page = none := by
  have hc : page.anchors.filterMap (fun a =>
      if nextLabels.any (fun t => subIn t (strLower a.text)) then some a.href else none) =
      [] := by
    rw [List.filterMap_eq_nil_iff]
    intro a ha
    simp [h a ha]
  simp only [find_next_page_url_from_html, hc]

/-- Page with an anchor carrying an explicit `rel=next` attribute whose
text matches no next-page label. -/
def exC6p : Html := ⟨[⟨"/page2", "Mehr", ["next"]⟩], "", false⟩

/-- C6 counterexample: the only anchor has `rel=["next"]` but its text
matches no next-page label, and the walker returns `None` rather than a
cursor for that anchor's target — no rel-based strategy exists. -/
theorem find_next_ignores_rel_next :
    find_next_page_url_from_html exC6p = none ∧
    exC6p.anchors = [⟨"/page2", "Mehr", ["next"]⟩] := by
  constructor
  · rfl
  · rfl

theorem find_next_none_without_label_match_witness :
    find_next_page_url_from_html exC6p = none :=
  find_next_none_without_label_match exC6p (by decide)

theorem append_ne_empty_right (a b : String) (hb : b ≠ "") : a ++ b ≠ "" := by
  intro hc
  apply hb
  have hd := congrArg String.data hc
  rw [String.data_append] at hd
  exact String.ext (List.append_eq_nil.mp hd).2

theorem append_ne_empty_left (a b : String) (ha : a ≠ "") : a ++ b ≠ "" := by
  intro hc
  apply ha
  have hd := congrArg String.data hc
  rw [String.data_append] at hd
  exact String.ext (List.append_eq_nil.mp hd).1

theorem urljoin_ne_empty (base href : String) (h : href ≠ "") : urljoin base href ≠ "" := by
  unfold urljoin
  split_ifs
  · exact h
  · exact append_ne_empty_right _ _ h
  · exact append_ne_empty_right _ _ h
  · exact append_ne_empty_right _ _ h
  · exact append_ne_empty_right _ _ h
  · exact append_ne_empty_right _ _ h

theorem detailSearch_some_ne_empty {s d : String} (h : detailSearch s = some d) :
    s ≠ "" := by
  intro hc
  rw [hc] at h
  exact Option.noConfusion h

/-- C7: on any page — in particular one with no named results container —
an anchor whose href matches the detail pattern with id `123` guarantees
that extraction returns a reference with record id `"123"`. -/
theorem extract_finds_anchor_by_pattern (page : Html) (a : Anchor)
    (_h0 : page.hasResultsContainer = false)
    (ha : a ∈ page.anchors) (hm : detailSearch a.href = some "123") :
    ∃ r ∈ extract_result_rows_from_html page, r.ml_id = "123" := by
  have hne : a.href ≠ "" := detailSearch_some_ne_empty hm
  have hurl : absolute_url START_URL a.href = some (urljoin START_URL a.href) := by
    simp [absolute_url, hne]
  have hjne : urljoin START_URL a.href ≠ "" := urljoin_ne_empty _ _ hne
  have hrow : (⟨"123", if a.text = "" then "Protokoll " ++ "123" else a.text,
      urljoin START_URL a.href⟩ : Row) ∈ rawRows page := by
    rw [rawRows]
    apply List.mem_filterMap.mpr
    refine ⟨a, ha, ?_⟩
    rw [hm, hurl]
    simp [hjne]
  rcases dedupGo_coverage (rawRows page) [] hrow with hc | ⟨r', hr', hid⟩
  · simp at hc
  · exact ⟨r', hr', hid⟩

/-- Page with no results container whose sole anchor points at record 123,
used to witness C7. -/
def exC7p : Html := ⟨[⟨"detailed.php?ID=123", "", []⟩], "", false⟩

theorem extract_finds_anchor_by_pattern_witness :
    ∃ r ∈ extract_result_rows_from_html exC7p, r.ml_id = "123" :=
  extract_finds_anchor_by_pattern exC7p ⟨"detailed.php?ID=123", "", []⟩ rfl
    (by decide) (by rfl)

/-- C10: every extracted reference has a nonempty title, and the title is
the matching anchor's text, defaulting to `"Protokoll "` followed by the
record id when the anchor has no visible text. -/
theorem extract_titles_nonempty_with_default (page : Html) (r : Row)
    (hr : r ∈ extract_result_rows_from_html page) :
    r.title ≠ "" ∧ ∃ a ∈ page.anchors, detailSearch a.href = some r.ml_id ∧
      r.title = (if a.text = "" then "Protokoll " ++ r.ml_id else a.text) := by
  have hraw : r ∈ rawRows page := mem_of_mem_dedupGo _ [] hr
  rw [rawRows] at hraw
  obtain ⟨a, ha, hf⟩ := List.mem_filterMap.mp hraw
  cases hd : detailSearch a.href with
  | none => rw [hd] at hf; simp at hf
  | some d =>
    rw [hd] at hf
    cases hu : absolute_url START_URL a.href with
    | none => rw [hu] at hf; simp at hf
    | some u =>
      rw [hu] at hf
      by_cases hue : u = ""
      · simp [hue] at hf
      · simp only [hue, if_neg, ite_false, Option.some.injEq] at hf
        subst hf
        refine ⟨?_, a, ha, hd, rfl⟩
        by_cases hat : a.text = ""
        · simp only [hat, if_pos, ite_true]
          exact append_ne_empty_left _ _ (by decide)
        · simp only [hat, if_neg, ite_false]
          exact hat

/-- Page whose sole anchor has no visible text, used to witness C10. -/
def exC10p : Html := ⟨[⟨"detailed.php?ID=7", "", []⟩], "", false⟩

/-- The reference extracted from `exC10p`. -/
def exC10r : Row :=
  ⟨"7", "Protokoll 7",
    "https://www.medi-learn.de/pruefungsprotokolle/facharztpruefung/detailed.php?ID=7"⟩

theorem extract_titles_nonempty_with_default_witness :
    exC10r.title ≠ "" ∧ ∃ a ∈ exC10p.anchors, detailSearch a.href = some exC10r.ml_id ∧
      exC10r.title = (if a.text = "" then "Protokoll " ++ exC10r.ml_id else a.text) :=
  extract_titles_nonempty_with_default exC10p exC10r (by decide)

/-- C8: with options Berlin/Dresden/München (arbitrary values), any
requested text normalizing to `"dresden"` — in particular any letter-case
variant of `"Dresden"` — resolves to the option paired with `"Dresden"`
via the exact case-insensitive pass, before any substring fallback. -/
theorem pick_option_value_exact_case_insensitive (vB vD vM : String) (w : String)
    (h : norm w = "dresden") :
    pick_option_value [⟨"Berlin", vB⟩, ⟨"Dresden", vD⟩, ⟨"München", vM⟩] w =
      (some vD, some "Dresden") := by
  have h1 : (norm "Berlin" == "dresden") = false := by decide
  have h2 : (norm "Dresden" == "dresden") = true := by decide
  simp [pick_option_value, h, List.find?, h1, h2]

theorem pick_option_value_exact_case_insensitive_witness :
    pick_option_value [⟨"Berlin", "1"⟩, ⟨"Dresden", "5"⟩, ⟨"München", "9"⟩] "dReSdEn" =
      (some "5", some "Dresden") :=
  pick_option_value_exact_case_insensitive "1" "5" "9" "dReSdEn" (by decide)

/-- C4 (amended): label resolution tries an exact case-insensitive match,
then a prefix/substring containment pass (either direction); there is no
fallback-code table and no first-non-empty-option fallback, so when the
requested text matches no option of any select under those two passes,
the auto handler raises its mapping error even though selection controls
are present. -/
theorem autoResolve_error_when_no_match (selects : List SelectElem) (wU wF : String)
    (h : ∀ sel ∈ selects, (pick_from_bs sel wU).1 = none) :
    autoResolve selects wU wF = Except.error "Could not map both filters" := by
  have hfind1 : selects.find? (fun sel =>
      guess_select_role sel == some "uni" && truthy (pick_from_bs sel wU).1) = none := by
    rw [List.find?_eq_none]
    intro sel hs
    simp [h sel hs, truthy]
  have hfind2 : selects.find? (fun sel => truthy (pick_from_bs sel wU).1) = none := by
    rw [List.find?_eq_none]
    intro sel hs
    simp [h sel hs, truthy]
  simp only [autoResolve, resolveRole, hfind1, hfind2]
  simp [truthy]

/-- A selection control present on the page whose only option is Berlin;
the requested text "Paris" matches nothing in it. -/
def exC4sel : SelectElem := ⟨"sel1", "", "ctx", [⟨"Berlin", some "1"⟩]⟩

/-- C4 counterexample: a selection control is present (with a non-empty
option), yet because no option matches the requested text the auto handler
raises its mapping error — instead of degrading to a fallback-code table or
to the first non-empty option as the claim states. -/
theorem auto_resolution_fails_with_control_present :
    autoResolve [exC4sel] "Paris" "Chirurgie" = Except.error "Could not map both filters" ∧
    exC4sel.options ≠ [] := by
  constructor
  · rfl
  · decide

theorem autoResolve_error_when_no_match_witness :
    autoResolve [exC4sel] "Paris" "Chirurgie" = Except.error "Could not map both filters" :=
  autoResolve_error_when_no_match [exC4sel] "Paris" "Chirurgie" (by decide)
